import Mathlib

/-!
Verification of the mini-wallet transfer engine against its specification.

The embedding models the JavaScript/Mongoose code of
`src/models/User.js`, `src/models/Transaction.js`,
`src/services/walletService.js` and `src/controllers/walletController.js`.

Numbers: JavaScript numbers are modelled by `JNum`, an exact rational
together with the special values `nan`, `inf` (positive infinity) and
`ninf` (negative infinity).  Finite arithmetic is modelled exactly (the
code rounds every stored value to 2 fractional digits, so the idealised
rational semantics and the IEEE double semantics agree on all values
handled here); `Math.round` is modelled by its ECMAScript definition:
the closest integer, halves rounding toward positive infinity.

State: the two MongoDB collections become two Lean lists.  Operations
return the (possibly partially mutated) state together with an
`Except Err` outcome, mirroring the fallback (non-transactional)
execution path `_transferWithAtomicOps`, which the service selects on a
single-node topology and which performs no overarching rollback.
-/

namespace MiniWallet

/-- A JavaScript number: an exact rational, NaN, or an infinity. -/
inductive JNum where
  | num (q : ℚ)
  | nan
  | inf
  | ninf
deriving DecidableEq, Repr

/-- JavaScript `isNaN` on an already-numeric value. -/
def isNan : JNum → Bool
  | .nan => true
  | _ => false

/-- JavaScript `<=` on numbers (false whenever NaN is involved). -/
def jle : JNum → JNum → Bool
  | .num a, .num b => decide (a ≤ b)
  | .nan, _ => false
  | _, .nan => false
  | .ninf, _ => true
  | _, .inf => true
  | .inf, _ => false
  | _, .ninf => false

/-- JavaScript `<` on numbers (false whenever NaN is involved). -/
def jlt : JNum → JNum → Bool
  | .num a, .num b => decide (a < b)
  | .nan, _ => false
  | _, .nan => false
  | .inf, _ => false
  | _, .inf => true
  | .ninf, .ninf => false
  | .ninf, .num _ => true
  | .num _, .ninf => false

/-- JavaScript addition (`$inc` adds the delta to the stored value). -/
def jadd : JNum → JNum → JNum
  | .num a, .num b => .num (a + b)
  | .nan, _ => .nan
  | _, .nan => .nan
  | .inf, .ninf => .nan
  | .ninf, .inf => .nan
  | .inf, _ => .inf
  | _, .inf => .inf
  | .ninf, _ => .ninf
  | _, .ninf => .ninf

/-- JavaScript unary minus. -/
def jneg : JNum → JNum
  | .num a => .num (-a)
  | .nan => .nan
  | .inf => .ninf
  | .ninf => .inf

/-- JavaScript `Math.abs`. -/
def jabs : JNum → JNum
  | .num a => .num |a|
  | .nan => .nan
  | .inf => .inf
  | .ninf => .inf

/-- `Math.round(q * 100) / 100` on a finite value: ECMAScript
`Math.round` returns the closest integer, halves toward positive
infinity, i.e. `⌊x + 1/2⌋`. -/
def jsRound2 (q : ℚ) : ℚ := (⌊q * 100 + 1 / 2⌋ : ℚ) / 100

/-- `(v) => Math.round(v * 100) / 100` on a JavaScript number:
`NaN` and the infinities are fixed points. -/
def jround2 : JNum → JNum
  | .num q => .num (jsRound2 q)
  | .nan => .nan
  | .inf => .inf
  | .ninf => .ninf

/-- The `balance` getter of `userSchema` (`User.js` line 26). -/
def balanceGet (v : JNum) : JNum := jround2 v

/-- The `balance` setter of `userSchema` (`User.js` line 27). -/
def balanceSet (v : JNum) : JNum := jround2 v

/-- An `Account` document of the `User` collection. -/
structure Account where
  id : String
  name : String
  email : String
  balance : JNum
deriving DecidableEq, Repr

/-- A `Transaction` document (the transfer ledger record). -/
structure Txn where
  fromUserId : String
  toUserId : String
  amount : JNum
  status : String
  description : String
deriving DecidableEq, Repr

/-- The persistent state: the `User` and `Transaction` collections. -/
structure State where
  users : List Account
  txns : List Txn
deriving DecidableEq, Repr

/-- Error outcomes, one per distinct thrown error message of the code. -/
inductive Err where
  | invalidSenderId
  | invalidRecipientId
  | selfTransfer
  | invalidAmount
  | senderNotFound
  | recipientNotFound
  | insufficientBalance
  | duplicateEmail
  | validationFailed
deriving DecidableEq, Repr

/-- The value returned by a successful transfer (amount and the
post-transfer balances re-read through the schema getter). -/
structure TransferResult where
  amount : JNum
  fromBalance : JNum
  toBalance : JNum
deriving DecidableEq, Repr

/-- `mongoose.Types.ObjectId.isValid` on a string argument: a 12
character string, or 24 hexadecimal characters. -/
def validObjectId (s : String) : Bool :=
  s.length == 12 ||
    (s.length == 24 && s.toList.all fun c =>
      c.isDigit || ('a' ≤ c && c ≤ 'f') || ('A' ≤ c && c ≤ 'F'))

/-- String trimming (leading and trailing whitespace removed), the
`trim: true` schema option, implemented over the character list. -/
def strTrim (s : String) : String :=
  ⟨((s.data.dropWhile Char.isWhitespace).reverse.dropWhile
      Char.isWhitespace).reverse⟩

/-- Lower-casing, the `lowercase: true` schema option, implemented over
the character list. -/
def strLower (s : String) : String := ⟨s.data.map Char.toLower⟩

/-- The `lowercase` and `trim` options of the email field of
`userSchema`: applied on save, and by query casting on `findOne`
filters (Mongoose 6 runs setters on query filter values). -/
def normalizeEmail (e : String) : String := strLower (strTrim e)

/-- The email `match` validator `/^\S+@\S+\.\S+$/` of `userSchema`:
no whitespace anywhere, an `@` with at least one character before it,
and a later `.` with at least one character between `@` and `.` and at
least one character after the `.`. -/
def emailOk (s : String) : Bool :=
  let cs := s.toList
  let n := cs.length
  cs.all (fun c => !c.isWhitespace) &&
    (List.range n).any fun i =>
      cs.getD i ' ' == '@' && decide (1 ≤ i) &&
        (List.range n).any fun j =>
          cs.getD j ' ' == '.' && decide (i + 2 ≤ j) && decide (j + 2 ≤ n)

/-- The `name` validators of `userSchema`: trimmed length between 2 and
100 characters. -/
def nameOk (s : String) : Bool := 2 ≤ s.length && s.length ≤ 100

/-- `User.findById` / the `_id` part of the `findOneAndUpdate` filter. -/
def findUser (us : List Account) (uid : String) : Option Account :=
  us.find? fun u => u.id == uid

/-- The balance condition of the atomic query built by
`User.updateBalance`: when the rounded delta is negative the filter
additionally requires `balance >= Math.abs(roundedDelta)` on the stored
value; otherwise the filter is only on `_id`. -/
def debitGuard (rd bal : JNum) : Bool :=
  if jlt rd (.num 0) then jle (jabs rd) bal else true

/-- `User.updateBalance(userId, delta)` (`User.js` lines 40-67): round
the delta, run one atomic `findOneAndUpdate` whose filter matches the
`_id` and, for a debit, a sufficient stored balance, applying
`$inc: { balance: roundedDelta }`; when no document matches — whether
because the id resolves to no account or because the balance guard
fails — the code throws the single error `Insufficient balance`.
(`runValidators` is immaterial: Mongoose update validators do not run
on `$inc`; the `session` argument carries no observable behaviour in
the fallback path.) -/
def updateBalance (us : List Account) (userId : String) (delta : JNum) :
    Except Err (List Account × Account) :=
  match us.find?
      (fun u => u.id == userId && debitGuard (jround2 delta) u.balance) with
  | none => .error .insufficientBalance
  | some u =>
      .ok (us.map (fun v => if v.id == userId then
            { u with balance := jadd u.balance (jround2 delta) } else v),
          { u with balance := jadd u.balance (jround2 delta) })

/-- `new Transaction({...}); transaction.save()`: the amount setter
rounds to 2 fractional digits and the `min: 0.01` validator rejects any
amount that is not at least `0.01` (NaN also fails, the validator
checking `value >= min`); on success the record is prepended to the
ledger. -/
def txnSave (ts : List Txn) (t : Txn) : Except Err (List Txn) :=
  if jle (.num (1 / 100)) (jround2 t.amount) then
    .ok ({ t with amount := jround2 t.amount } :: ts)
  else .error .validationFailed

/-- `walletService._transferWithAtomicOps` (`walletService.js` lines
184-240): verify both users exist, check the sender balance read
through the getter, debit, credit, write the ledger record, and re-read
both balances.  The fallback path has no rollback, so an error after a
mutation returns the mutated users (the final catch arm is unreachable
because both updates just found their documents). -/
def transferAtomicOps (st : State) (fromUserId toUserId : String)
    (transferAmount : JNum) (description : String) :
    State × Except Err TransferResult :=
  match findUser st.users fromUserId with
  | none => (st, .error .senderNotFound)
  | some fromUser =>
    match findUser st.users toUserId with
    | none => (st, .error .recipientNotFound)
    | some _ =>
      if jlt (balanceGet fromUser.balance) transferAmount then
        (st, .error .insufficientBalance)
      else
        match updateBalance st.users fromUserId (jneg transferAmount) with
        | .error e => (st, .error e)
        | .ok (us1, _) =>
          match updateBalance us1 toUserId transferAmount with
          | .error e => ({ st with users := us1 }, .error e)
          | .ok (us2, _) =>
            match txnSave st.txns
                ⟨fromUserId, toUserId, transferAmount, "SUCCESS", description⟩ with
            | .error e => ({ st with users := us2 }, .error e)
            | .ok ts2 =>
              match findUser us2 fromUserId, findUser us2 toUserId with
              | some fu2, some tu2 =>
                  (⟨us2, ts2⟩,
                   .ok ⟨transferAmount, balanceGet fu2.balance,
                        balanceGet tu2.balance⟩)
              | _, _ => (⟨us2, ts2⟩, .error .senderNotFound)

/-- `walletService.transferMoney` (`walletService.js` lines 73-106):
id format checks, the self-transfer check, the `amount <= 0` check,
rounding of the amount, then the transfer body.  On a single-node
topology the service takes the `_transferWithAtomicOps` branch, which
this model follows; the `_transferWithTransaction` branch runs the same
checks and mutations with a rollback on failure. -/
def transferMoney (st : State) (fromUserId toUserId : String)
    (amount : JNum) (description : String) :
    State × Except Err TransferResult :=
  if !validObjectId fromUserId then (st, .error .invalidSenderId)
  else if !validObjectId toUserId then (st, .error .invalidRecipientId)
  else if fromUserId == toUserId then (st, .error .selfTransfer)
  else if jle amount (.num 0) then (st, .error .invalidAmount)
  else transferAtomicOps st fromUserId toUserId (jround2 amount) description

/-- The `POST /api/transfer` handler (`walletController.js` lines
77-109): `parseFloat` the request amount (a non-numeric body value
parses to NaN, modelled as `JNum.nan`), reject NaN and non-positive
amounts with the 400 `Amount must be a positive number` response, then
delegate to the service. -/
def transferEndpoint (st : State) (fromUserId toUserId : String)
    (amount : JNum) (description : String) :
    State × Except Err TransferResult :=
  if isNan amount || jle amount (.num 0) then (st, .error .invalidAmount)
  else transferMoney st fromUserId toUserId amount description

/-- `walletService.createAccount` (`walletService.js` lines 13-41):
`User.findOne({ email })` with the normalized email, failing with
`User with this email already exists` on a hit; otherwise build the
user (initial balance defaulting to the configured 100), apply the
schema setters, run the save validators (name length, email pattern,
`min: 0` on balance) and append the account.  The initial balance is
the raw JavaScript number from the request body: a JSON `1e400` or the
string `"Infinity"` casts to `Infinity`, which the rounding setter
fixes and the `min` validator (`value >= 0`) accepts; `NaN` and
negative infinity fail that validator. -/
def createAccount (st : State) (newId name email : String)
    (initialBalance : Option JNum) : State × Except Err Account :=
  if st.users.any (fun u => u.email == normalizeEmail email) then
    (st, .error .duplicateEmail)
  else
    let bal : JNum := initialBalance.getD (.num 100)
    let user : Account :=
      ⟨newId, strTrim name, normalizeEmail email, balanceSet bal⟩
    if !nameOk user.name || !emailOk user.email ||
        !(jle (.num 0) user.balance) then
      (st, .error .validationFailed)
    else ({ st with users := st.users ++ [user] }, .ok user)

/-- Modelled from the spec: rounding to 2 fractional digits with halves
rounded away from zero, the policy named in §4.1 of the specification;
stated for comparison with the rounding the code performs
(`jsRound2`). -/
def roundHalfAwayFromZero2 (q : ℚ) : ℚ :=
  if 0 ≤ q then (⌊q * 100 + 1 / 2⌋ : ℚ) / 100
  else -((⌊-q * 100 + 1 / 2⌋ : ℚ) / 100)

/-- A well-formed ObjectId string used by the concrete scenarios. -/
def oid1 : String := "507f1f77bcf86cd799439011"

/-- A second well-formed ObjectId string, distinct from `oid1`. -/
def oid2 : String := "507f1f77bcf86cd799439022"

/-- One event of an interleaved execution of concurrent transfer
attempts that all debit the same account: either the attempt reached
its atomic `User.updateBalance` debit (its pre-check passed on the
balance it observed), or it aborted at the pre-check
`fromUser.balance < transferAmount`, which also throws
`Insufficient balance`. -/
inductive TStep where
  | debit
  | precheckFail
deriving DecidableEq, Repr

/-- Serialized execution of concurrent debit attempts of the same
amount `a` against the account `uid`: each `debit` event runs the
atomic conditional adjust `User.updateBalance uid (-a)`; the result is
the final user collection together with the number of successful and
of failed attempts.  Any interleaving of the attempts is some such
event list, because each balance check-and-mutate is one indivisible
`findOneAndUpdate`. -/
def runAttempts (uid : String) (a : ℚ) :
    List TStep → List Account → List Account × ℕ × ℕ
  | [], us => (us, 0, 0)
  | .debit :: rest, us =>
      match updateBalance us uid (.num (-a)) with
      | .ok (us2, _) =>
          let r := runAttempts uid a rest us2
          (r.1, r.2.1 + 1, r.2.2)
      | .error _ =>
          let r := runAttempts uid a rest us
          (r.1, r.2.1, r.2.2 + 1)
  | .precheckFail :: rest, us =>
      let r := runAttempts uid a rest us
      (r.1, r.2.1, r.2.2 + 1)

/-- A rational with at most 2 fractional digits. -/
def Is2dp (q : ℚ) : Prop := ∃ z : ℤ, q = (z : ℚ) / 100

/-- A stored balance that is a non-negative integer multiple of 0.01. -/
def Is2dpNonneg (j : JNum) : Prop := ∃ n : ℕ, j = .num ((n : ℚ) / 100)

/-- The balance invariant over the whole user collection. -/
def UsersInv (us : List Account) : Prop := ∀ u ∈ us, Is2dpNonneg u.balance

/-- Document ids of the user collection are pairwise distinct
(the MongoDB `_id` uniqueness guarantee). -/
def IdsNodup (us : List Account) : Prop := (us.map Account.id).Nodup

theorem jsRound2_is2dp (q : ℚ) : Is2dp (jsRound2 q) :=
  ⟨⌊q * 100 + 1 / 2⌋, rfl⟩

theorem jsRound2_of_is2dp {q : ℚ} (h : Is2dp q) : jsRound2 q = q := by
  obtain ⟨z, rfl⟩ := h
  unfold jsRound2
  rw [div_mul_cancel₀ _ (by norm_num : (100 : ℚ) ≠ 0), Int.floor_int_add]
  norm_num

theorem is2dp_neg {q : ℚ} (h : Is2dp q) : Is2dp (-q) := by
  obtain ⟨z, rfl⟩ := h
  exact ⟨-z, by push_cast; ring⟩

theorem is2dp_add {a b : ℚ} (ha : Is2dp a) (hb : Is2dp b) : Is2dp (a + b) := by
  obtain ⟨z, rfl⟩ := ha
  obtain ⟨w, rfl⟩ := hb
  exact ⟨z + w, by push_cast; ring⟩

theorem jsRound2_nonneg {q : ℚ} (h : 0 ≤ q) : 0 ≤ jsRound2 q := by
  unfold jsRound2
  have h1 : (0 : ℤ) ≤ ⌊q * 100 + 1 / 2⌋ := by
    rw [Int.le_floor]
    push_cast
    nlinarith
  positivity

/-- Evaluation helper: `jsRound2` fixes any rational whose product with
100 is an integer. -/
theorem jsRound2_eq_self {q : ℚ} (z : ℤ) (h : q * 100 = (z : ℚ)) :
    jsRound2 q = q := by
  refine jsRound2_of_is2dp ⟨z, ?_⟩
  field_simp
  linarith

/-- Evaluation helper: compute `jsRound2 q` from floor bounds. -/
theorem jsRound2_eval {q : ℚ} (z : ℤ) (h1 : (z : ℚ) ≤ q * 100 + 1 / 2)
    (h2 : q * 100 + 1 / 2 < z + 1) : jsRound2 q = (z : ℚ) / 100 := by
  unfold jsRound2
  rw [show ⌊q * 100 + 1 / 2⌋ = z from Int.floor_eq_iff.mpr ⟨h1, h2⟩]

theorem jround2_idem (j : JNum) : jround2 (jround2 j) = jround2 j := by
  cases j with
  | num q => simp [jround2, jsRound2_of_is2dp (jsRound2_is2dp q)]
  | nan => rfl
  | inf => rfl
  | ninf => rfl

/-- `findUser` commutes with an id-preserving map of the collection. -/
theorem findUser_map {g : Account → Account} (hg : ∀ v, (g v).id = v.id)
    (us : List Account) (tid : String) :
    findUser (us.map g) tid = (findUser us tid).map g := by
  induction us with
  | nil => rfl
  | cons u t ih =>
      unfold findUser at *
      simp only [List.map_cons, List.find?_cons, hg u]
      cases h : (u.id == tid) <;> simp [h, ih]

/-- Under distinct ids, a `find?` whose filter strengthens the id match
finds exactly the document that the plain id lookup finds. -/
theorem find?_strong_nodup {us : List Account} {uid : String}
    {p : Account → Bool} {w : Account} (hnd : IdsNodup us)
    (h : us.find? (fun u => u.id == uid && p u) = some w) :
    findUser us uid = some w ∧ p w = true := by
  induction us with
  | nil => simp [List.find?] at h
  | cons u t ih =>
      unfold IdsNodup at hnd
      simp only [List.map_cons, List.nodup_cons] at hnd
      unfold findUser
      rw [List.find?_cons] at h ⊢
      cases hid : (u.id == uid) with
      | true =>
          simp only [hid, Bool.true_and] at h ⊢
          cases hp : p u with
          | true =>
              simp only [hp, cond_true, Option.some.injEq] at h
              subst h
              exact ⟨rfl, hp⟩
          | false =>
              exfalso
              simp only [hp, cond_false] at h
              have hw : w ∈ t := List.mem_of_find?_eq_some h
              have hwid : (w.id == uid) = true := by
                have := List.find?_some h
                exact (Bool.and_eq_true _ _).mp this |>.1
              have : u.id ∈ t.map Account.id := by
                rw [List.mem_map]
                refine ⟨w, hw, ?_⟩
                rw [eq_of_beq hwid, eq_of_beq hid]
              exact hnd.1 this
      | false =>
          simp only [hid, Bool.false_and, cond_false] at h ⊢
          exact ih hnd.2 h

theorem updateBalance_of_findUser_none {us : List Account} {uid : String}
    (h : findUser us uid = none) (δ : JNum) :
    updateBalance us uid δ = .error .insufficientBalance := by
  unfold findUser at h
  unfold updateBalance
  have hn : us.find?
      (fun u => u.id == uid && debitGuard (jround2 δ) u.balance) = none := by
    rw [List.find?_eq_none]
    intro v hv
    have := List.find?_eq_none.mp h v hv
    simp only [Bool.and_eq_true, not_and]
    intro hc
    exact absurd hc this
  rw [hn]

theorem updateBalance_of_findUser_some {us : List Account} {uid : String}
    {u : Account} (hnd : IdsNodup us) (h : findUser us uid = some u)
    (δ : JNum) :
    updateBalance us uid δ =
      if debitGuard (jround2 δ) u.balance then
        .ok (us.map fun v => if v.id == uid then
              { u with balance := jadd u.balance (jround2 δ) } else v,
            { u with balance := jadd u.balance (jround2 δ) })
      else .error .insufficientBalance := by
  unfold updateBalance
  cases hc : us.find?
      (fun v => v.id == uid && debitGuard (jround2 δ) v.balance) with
  | some w =>
      obtain ⟨hw, hp⟩ := find?_strong_nodup hnd hc
      rw [h] at hw
      cases hw
      rw [if_pos hp]
  | none =>
      unfold findUser at h
      have hu : u ∈ us := List.mem_of_find?_eq_some h
      have hid := List.find?_some h
      have hng := List.find?_eq_none.mp hc u hu
      simp only [Bool.and_eq_true, not_and] at hng
      have hp : debitGuard (jround2 δ) u.balance = false :=
        Bool.eq_false_iff.mpr (hng hid)
      rw [if_neg (by simp [hp])]

theorem findUser_id {us : List Account} {uid : String} {u : Account}
    (h : findUser us uid = some u) : u.id = uid := by
  unfold findUser at h
  have hb := List.find?_some h
  exact eq_of_beq hb

theorem findUser_mem {us : List Account} {uid : String} {u : Account}
    (h : findUser us uid = some u) : u ∈ us := by
  unfold findUser at h
  exact List.mem_of_find?_eq_some h

theorem idsNodup_map {us : List Account} {g : Account → Account}
    (hg : ∀ v, (g v).id = v.id) (hnd : IdsNodup us) :
    IdsNodup (us.map g) := by
  unfold IdsNodup at *
  rw [List.map_map, show Account.id ∘ g = Account.id from funext hg]
  exact hnd

theorem findUser_setBal {uid : String} {w : Account} (hw : w.id = uid)
    (us : List Account) (tid : String) :
    findUser (us.map fun x : Account => if x.id == uid then w else x) tid =
      (findUser us tid).map fun x : Account =>
        if x.id == uid then w else x := by
  refine findUser_map (fun v => ?_) us tid
  by_cases hv : (v.id == uid) = true
  · simp only [if_pos hv]
    rw [hw, eq_of_beq hv]
  · simp only [if_neg hv]

theorem idsNodup_setBal {uid : String} {w : Account} (hw : w.id = uid)
    {us : List Account} (hnd : IdsNodup us) :
    IdsNodup (us.map fun x : Account => if x.id == uid then w else x) := by
  refine idsNodup_map (fun v => ?_) hnd
  by_cases hv : (v.id == uid) = true
  · simp only [if_pos hv]
    rw [hw, eq_of_beq hv]
  · simp only [if_neg hv]

theorem updateBalance_error_kind {us : List Account} {uid : String}
    {δ : JNum} {e : Err} (h : updateBalance us uid δ = .error e) :
    e = .insufficientBalance := by
  unfold updateBalance at h
  cases hc : us.find?
      (fun u => u.id == uid && debitGuard (jround2 δ) u.balance) with
  | some w => rw [hc] at h; simp at h
  | none => rw [hc] at h; simpa using h.symm

/-- Characterization of a committing run of the fallback transfer
body: with both parties present, distinct ids, 2-decimal amounts and
balances, an amount of at least 0.01 covered by the sender balance, the
transfer debits the sender, credits the recipient, and prepends exactly
one SUCCESS ledger record. -/
theorem transferAtomicOps_commit
    (st : State) (fromId toId desc : String) (q b1 b2 : ℚ)
    (u v : Account)
    (hnd : IdsNodup st.users)
    (hu : findUser st.users fromId = some u)
    (hv : findUser st.users toId = some v)
    (hb1 : u.balance = .num b1) (hb2 : v.balance = .num b2)
    (hne : fromId ≠ toId)
    (h2q : Is2dp q) (h2b1 : Is2dp b1) (h2b2 : Is2dp b2)
    (hmin : 1 / 100 ≤ q) (hle : q ≤ b1) :
    transferAtomicOps st fromId toId (.num q) desc =
      (⟨st.users.map (fun w =>
          if w.id == fromId then { u with balance := .num (b1 - q) }
          else if w.id == toId then { v with balance := .num (b2 + q) }
          else w),
        ⟨fromId, toId, .num q, "SUCCESS", desc⟩ :: st.txns⟩,
       .ok ⟨.num q, .num (b1 - q), .num (b2 + q)⟩) := by
  have huid : u.id = fromId := findUser_id hu
  have hvid : v.id = toId := findUser_id hv
  have hrq : jsRound2 q = q := jsRound2_of_is2dp h2q
  have hrnq : jsRound2 (-q) = -q := jsRound2_of_is2dp (is2dp_neg h2q)
  have hrb1 : jsRound2 b1 = b1 := jsRound2_of_is2dp h2b1
  have hsub : b1 + -q = b1 - q := by ring
  have h2sub : Is2dp (b1 - q) := by
    rw [← hsub]
    exact is2dp_add h2b1 (is2dp_neg h2q)
  have hradd : jsRound2 (b2 + q) = b2 + q :=
    jsRound2_of_is2dp (is2dp_add h2b2 h2q)
  have hrsub : jsRound2 (b1 - q) = b1 - q := jsRound2_of_is2dp h2sub
  -- the debit
  have hdeb : updateBalance st.users fromId (jneg (.num q)) =
      .ok (st.users.map fun w => if w.id == fromId then
            { u with balance := .num (b1 - q) } else w,
          { u with balance := .num (b1 - q) }) := by
    rw [show jneg (.num q) = JNum.num (-q) from rfl,
      updateBalance_of_findUser_some hnd hu (.num (-q))]
    have hg : debitGuard (jround2 (.num (-q))) u.balance = true := by
      simp only [jround2, hrnq, debitGuard, jlt, jle, jabs, hb1]
      rw [if_pos (by simp; linarith)]
      rw [abs_of_neg (by linarith : -q < 0)]
      simp only [decide_eq_true_eq, neg_neg]
      exact hle
    rw [if_pos hg]
    simp only [jround2, hrnq, hb1, jadd, hsub]
  -- the sender map preserves ids
  have hg1 : ∀ w : Account, ((fun x : Account => if x.id == fromId then
      { u with balance := JNum.num (b1 - q) } else x) w).id = w.id := by
    intro w
    by_cases hw : (w.id == fromId) = true
    · simp only [if_pos hw]
      rw [huid, eq_of_beq hw]
    · simp only [if_neg hw]
  have hnd1 : IdsNodup (st.users.map fun x : Account =>
      if x.id == fromId then
        { u with balance := JNum.num (b1 - q) } else x) :=
    idsNodup_map hg1 hnd
  have hvne : (v.id == fromId) = false := by
    rw [hvid]
    exact beq_eq_false_iff_ne.mpr fun hh => hne hh.symm
  have hv1 : findUser (st.users.map fun x : Account =>
      if x.id == fromId then
        { u with balance := JNum.num (b1 - q) } else x) toId = some v := by
    rw [findUser_map hg1, hv]
    simp only [Option.map_some']
    rw [if_neg (by simp [hvne])]
  have hg2 : ∀ w : Account, ((fun x : Account => if x.id == toId then
      { v with balance := JNum.num (b2 + q) } else x) w).id = w.id := by
    intro w
    by_cases hw : (w.id == toId) = true
    · simp only [if_pos hw]
      rw [hvid, eq_of_beq hw]
    · simp only [if_neg hw]
  have hune : (u.id == toId) = false := by
    rw [huid]
    exact beq_eq_false_iff_ne.mpr hne
  -- the credit
  have hcred : updateBalance (st.users.map fun x : Account =>
        if x.id == fromId then
          { u with balance := JNum.num (b1 - q) } else x) toId (.num q) =
      .ok ((st.users.map fun x : Account => if x.id == fromId then
            { u with balance := JNum.num (b1 - q) } else x).map
            (fun x : Account => if x.id == toId then
              { v with balance := .num (b2 + q) } else x),
          { v with balance := .num (b2 + q) }) := by
    rw [updateBalance_of_findUser_some hnd1 hv1 (.num q)]
    have hg : debitGuard (jround2 (.num q)) v.balance = true := by
      simp only [jround2, hrq, debitGuard, jlt]
      rw [if_neg (by simp; linarith)]
    rw [if_pos hg]
    simp only [jround2, hrq, hb2, jadd]
  -- the ledger write
  have hsave : txnSave st.txns ⟨fromId, toId, .num q, "SUCCESS", desc⟩ =
      .ok (⟨fromId, toId, .num q, "SUCCESS", desc⟩ :: st.txns) := by
    unfold txnSave
    rw [if_pos (by simp only [jround2, hrq, jle]; simpa using hmin)]
    simp only [jround2, hrq]
  have hfu2 : findUser ((st.users.map fun x : Account =>
        if x.id == fromId then
          { u with balance := JNum.num (b1 - q) } else x).map
        (fun x : Account => if x.id == toId then
          { v with balance := JNum.num (b2 + q) } else x)) fromId =
      some { u with balance := JNum.num (b1 - q) } := by
    have hbu : (u.id == fromId) = true := by
      rw [huid]
      simp
    rw [findUser_map hg2, findUser_map hg1, hu]
    simp only [Option.map_some']
    rw [if_pos hbu]
    dsimp only
    rw [if_neg (by simp [hune])]
  have htu2 : findUser ((st.users.map fun x : Account =>
        if x.id == fromId then
          { u with balance := JNum.num (b1 - q) } else x).map
        (fun x : Account => if x.id == toId then
          { v with balance := JNum.num (b2 + q) } else x)) toId =
      some { v with balance := JNum.num (b2 + q) } := by
    have hbv : (v.id == toId) = true := by
      rw [hvid]
      simp
    rw [findUser_map hg2, hv1]
    simp only [Option.map_some']
    rw [if_pos hbv]
  have hmaps : ((st.users.map fun x : Account =>
        if x.id == fromId then
          { u with balance := JNum.num (b1 - q) } else x).map
        (fun x : Account => if x.id == toId then
          { v with balance := JNum.num (b2 + q) } else x)) =
      st.users.map (fun w =>
        if w.id == fromId then { u with balance := .num (b1 - q) }
        else if w.id == toId then { v with balance := .num (b2 + q) }
        else w) := by
    rw [List.map_map]
    refine List.map_congr_left fun w _ => ?_
    simp only [Function.comp_apply]
    by_cases hw : (w.id == fromId) = true
    · rw [if_pos hw]
      dsimp only
      rw [if_neg (by simp [hune]), if_pos hw]
    · rw [if_neg hw, if_neg hw]
  unfold transferAtomicOps
  rw [hu, hv]
  dsimp only
  rw [hb1]
  rw [if_neg (by
    simp only [balanceGet, jround2, hrb1, jlt]
    simp only [decide_eq_true_eq, not_lt]
    exact hle)]
  rw [hdeb]
  dsimp only
  rw [hcred]
  dsimp only
  rw [hsave]
  dsimp only
  rw [hfu2, htu2]
  dsimp only
  rw [hmaps]
  simp only [balanceGet, jround2, hrsub, hradd]

/-- Claim C1, counterexample: a credit of +5 to an id that resolves to
no account fails with the error `Insufficient balance` — the code
conflates the missing-account case with the balance-floor case into the
single `Insufficient balance` throw, so the claimed distinct NotFound
outcome (and "never with InsufficientBalance" for credits) is false. -/
theorem c1_claim_counterexample :
    updateBalance [] oid1 (.num 5) = .error .insufficientBalance := by
  rfl

/-- Claim C1 (amended): `User.updateBalance` applied to an account id
with delta `d` succeeds exactly when the account exists and the balance
plus the rounded delta stays non-negative, returning the account with
balance increased by the rounded delta; every failure — the id
resolving to no account as well as an insufficient balance — raises
the one error `Insufficient balance` (there is no distinct NotFound
outcome), and on failure the store is unchanged (the atomic
`findOneAndUpdate` matched nothing). -/
theorem c1_conditionalAdjust_characterization
    (us : List Account) (uid : String) (d : ℚ) (hnd : IdsNodup us) :
    (findUser us uid = none →
      updateBalance us uid (.num d) = .error .insufficientBalance) ∧
    (∀ u b, findUser us uid = some u → u.balance = .num b →
      0 ≤ b + jsRound2 d →
      updateBalance us uid (.num d) =
        .ok (us.map fun v => if v.id == uid then
              { u with balance := .num (b + jsRound2 d) } else v,
            { u with balance := .num (b + jsRound2 d) })) ∧
    (∀ u b, findUser us uid = some u → u.balance = .num b → 0 ≤ b →
      b + jsRound2 d < 0 →
      updateBalance us uid (.num d) = .error .insufficientBalance) := by
  refine ⟨fun h => updateBalance_of_findUser_none h _, ?_, ?_⟩
  · intro u b hu hb hge
    rw [updateBalance_of_findUser_some hnd hu, hb]
    have hg : debitGuard (jround2 (.num d)) (.num b) = true := by
      simp only [jround2, debitGuard, jlt, jabs, jle]
      split
      · rename_i hlt
        simp only [decide_eq_true_eq] at hlt ⊢
        rw [abs_of_neg hlt]
        linarith
      · rfl
    rw [if_pos hg]
    simp [jround2, jadd]
  · intro u b hu hb hb0 hneg
    rw [updateBalance_of_findUser_some hnd hu, hb]
    have hr : jsRound2 d < 0 := by linarith
    have hg : debitGuard (jround2 (.num d)) (.num b) = false := by
      simp only [jround2, debitGuard, jlt, jabs, jle]
      rw [if_pos (by simpa using hr)]
      simp only [decide_eq_false_iff_not, not_le]
      rw [abs_of_neg hr]
      linarith
    rw [if_neg (by simp [hg])]

/-- Claim C1, witness: on a store holding one account with balance 10,
a delta of −3 succeeds and leaves balance 7. -/
theorem c1_conditionalAdjust_witness :
    updateBalance [⟨oid1, "Al", "al@x.io", .num 10⟩] oid1 (.num (-3)) =
      .ok ([⟨oid1, "Al", "al@x.io", .num 7⟩],
           ⟨oid1, "Al", "al@x.io", .num 7⟩) := by
  have hr : jsRound2 (-3) = -3 := jsRound2_eq_self (-300) (by norm_num)
  have h := (c1_conditionalAdjust_characterization
      [⟨oid1, "Al", "al@x.io", .num 10⟩] oid1 (-3)
      (by simp [IdsNodup])).2.1
      ⟨oid1, "Al", "al@x.io", .num 10⟩ 10 (by rfl) rfl
      (by rw [hr]; norm_num)
  rw [h]
  norm_num [hr]

/-- Claim C3: a transfer whose (normalized) amount exceeds the balance
the sender holds — the re-read getter value — fails with
`Insufficient balance` and returns the state unchanged: both balances
untouched and no `TransferRecord` written. -/
theorem c3_insufficient_balance_no_effect
    (st : State) (fromId toId desc : String) (a : JNum) (u v : Account)
    (hf : validObjectId fromId = true) (ht : validObjectId toId = true)
    (hne : fromId ≠ toId) (hnan : isNan a = false)
    (hpos : jle a (.num 0) = false)
    (hu : findUser st.users fromId = some u)
    (hv : findUser st.users toId = some v)
    (hex : jlt (balanceGet u.balance) (jround2 a) = true) :
    transferEndpoint st fromId toId a desc =
      (st, .error .insufficientBalance) := by
  unfold transferEndpoint transferMoney
  rw [hnan, hpos]
  simp only [Bool.or_self, Bool.false_eq_true, if_false]
  rw [if_neg (by simp [hf]), if_neg (by simp [ht]),
    if_neg (by simp [hne])]
  unfold transferAtomicOps
  rw [hu, hv]
  simp only [hex, if_true]

/-- Claim C3, witness: transferring 1000 from an account holding 70
fails with InsufficientBalance and changes nothing. -/
theorem c3_insufficient_balance_witness :
    transferEndpoint
        ⟨[⟨oid1, "A", "a@x.io", .num 70⟩, ⟨oid2, "B", "b@x.io", .num 50⟩],
         []⟩ oid1 oid2 (.num 1000) "" =
      (⟨[⟨oid1, "A", "a@x.io", .num 70⟩, ⟨oid2, "B", "b@x.io", .num 50⟩],
        []⟩, .error .insufficientBalance) :=
  c3_insufficient_balance_no_effect _ _ _ _ _
    ⟨oid1, "A", "a@x.io", .num 70⟩ ⟨oid2, "B", "b@x.io", .num 50⟩
    (by decide) (by decide) (by decide) rfl (by decide) rfl (by rfl)
    (by
      have h70 : jsRound2 70 = 70 := jsRound2_eq_self 7000 (by norm_num)
      have hk : jsRound2 1000 = 1000 :=
        jsRound2_eq_self 100000 (by norm_num)
      simp [balanceGet, jround2, jlt, h70, hk]
      norm_num)

/-- Claim C5, counterexample: a transfer whose sender id equals its
recipient id and resolves to no existing account (the store is empty)
fails with `SelfTransfer`, not with the `NotFound` the claim requires —
the self-transfer check of `transferMoney` runs before the existence
checks, which only happen inside `_transferWithAtomicOps`. -/
theorem c5_claim_counterexample :
    transferEndpoint ⟨[], []⟩ oid1 oid1 (.num 10) "" =
      (⟨[], []⟩, .error .selfTransfer) ∧
    Err.selfTransfer ≠ Err.senderNotFound := by
  constructor
  · rfl
  · decide

/-- Claim C5 (amended): validation still runs before any mutation, but
in the code order, not the spec order: the controller amount guard,
then sender and recipient id format, then sender ≠ recipient, then the
service amount check, and only afterwards — inside the transfer step —
existence of the sender and of the recipient; in particular a transfer
whose sender id equals its recipient id fails with `SelfTransfer` even
when that id resolves to no account. -/
theorem c5_validation_order
    (st : State) (fromId toId : String) (a : JNum) (desc : String) :
    (validObjectId fromId = false → isNan a = false →
      jle a (.num 0) = false →
      transferMoney st fromId toId a desc =
        (st, .error .invalidSenderId)) ∧
    (validObjectId fromId = true → validObjectId toId = false →
      transferMoney st fromId toId a desc =
        (st, .error .invalidRecipientId)) ∧
    (validObjectId fromId = true → validObjectId toId = true →
      fromId = toId →
      transferMoney st fromId toId a desc = (st, .error .selfTransfer)) ∧
    (validObjectId fromId = true → validObjectId toId = true →
      fromId ≠ toId → jle a (.num 0) = true →
      transferMoney st fromId toId a desc = (st, .error .invalidAmount)) ∧
    (validObjectId fromId = true → validObjectId toId = true →
      fromId ≠ toId → jle a (.num 0) = false →
      findUser st.users fromId = none →
      transferMoney st fromId toId a desc =
        (st, .error .senderNotFound)) ∧
    (∀ u, validObjectId fromId = true → validObjectId toId = true →
      fromId ≠ toId → jle a (.num 0) = false →
      findUser st.users fromId = some u →
      findUser st.users toId = none →
      transferMoney st fromId toId a desc =
        (st, .error .recipientNotFound)) := by
  refine ⟨?_, ?_, ?_, ?_, ?_, ?_⟩
  · intro hf _ _
    unfold transferMoney
    rw [if_pos (by simp [hf])]
  · intro hf ht
    unfold transferMoney
    rw [if_neg (by simp [hf]), if_pos (by simp [ht])]
  · intro hf ht he
    unfold transferMoney
    rw [if_neg (by simp [hf]), if_neg (by simp [ht]),
      if_pos (by simp [he])]
  · intro hf ht hne ha
    unfold transferMoney
    rw [if_neg (by simp [hf]), if_neg (by simp [ht]),
      if_neg (by simp [hne]), if_pos ha]
  · intro hf ht hne ha hu
    unfold transferMoney
    rw [if_neg (by simp [hf]), if_neg (by simp [ht]),
      if_neg (by simp [hne]), if_neg (by simp [ha])]
    unfold transferAtomicOps
    rw [hu]
  · intro u hf ht hne ha hu hv
    unfold transferMoney
    rw [if_neg (by simp [hf]), if_neg (by simp [ht]),
      if_neg (by simp [hne]), if_neg (by simp [ha])]
    unfold transferAtomicOps
    rw [hu, hv]

/-- Claim C5, witness: with both ids well-formed and distinct, a
positive amount and an empty store, the failure is `senderNotFound`. -/
theorem c5_validation_order_witness :
    transferMoney ⟨[], []⟩ oid1 oid2 (.num 10) "" =
      (⟨[], []⟩, .error .senderNotFound) :=
  (c5_validation_order ⟨[], []⟩ oid1 oid2 (.num 10) "").2.2.2.2.1
    (by decide) (by decide) (by decide) (by decide) rfl

/-- Claim C6, counterexample: an amount of positive Infinity — a value
that is not a finite positive number (and is reachable, since
`parseFloat("Infinity")` is `Infinity`) — does not fail with
`InvalidAmount`: it passes both amount guards and fails with
`InsufficientBalance` at the balance check. -/
theorem c6_claim_counterexample :
    transferEndpoint
        ⟨[⟨oid1, "A", "a@x.io", .num 100⟩, ⟨oid2, "B", "b@x.io", .num 50⟩],
         []⟩ oid1 oid2 .inf "" =
      (⟨[⟨oid1, "A", "a@x.io", .num 100⟩, ⟨oid2, "B", "b@x.io", .num 50⟩],
        []⟩, .error .insufficientBalance) ∧
    Err.insufficientBalance ≠ Err.invalidAmount := by
  constructor
  · rfl
  · decide

/-- Claim C6 (amended): every amount that is zero, negative, NaN, or
non-numeric (which parses to NaN) fails with `InvalidAmount` before any
mutation; an amount of positive Infinity, however, passes the amount
validation and the transfer instead fails with `InsufficientBalance`
at the balance check — still before any mutation, but not with the
claimed error. -/
theorem c6_amount_validation (st : State) (fromId toId desc : String) :
    (∀ a, (isNan a || jle a (.num 0)) = true →
      transferEndpoint st fromId toId a desc =
        (st, .error .invalidAmount)) ∧
    (∀ u (b : ℚ), validObjectId fromId = true → validObjectId toId = true →
      fromId ≠ toId → findUser st.users fromId = some u →
      u.balance = .num b → (∃ v, findUser st.users toId = some v) →
      transferEndpoint st fromId toId .inf desc =
        (st, .error .insufficientBalance)) := by
  constructor
  · intro a hg
    unfold transferEndpoint
    rw [if_pos hg]
  · rintro u b hf ht hne hu hb ⟨v, hv⟩
    unfold transferEndpoint transferMoney
    rw [if_neg (by simp [isNan, jle]), if_neg (by simp [hf]),
      if_neg (by simp [ht]), if_neg (by simp [hne]),
      if_neg (by simp [jle])]
    unfold transferAtomicOps
    rw [hu, hv]
    dsimp only
    rw [hb]
    rw [if_pos (by simp [balanceGet, jround2, jlt])]

/-- Claim C6, witness: amount 0 and amount −10 both fail with
`InvalidAmount` and leave the state unchanged. -/
theorem c6_amount_validation_witness :
    transferEndpoint ⟨[], []⟩ oid1 oid2 (.num 0) "" =
      (⟨[], []⟩, .error .invalidAmount) ∧
    transferEndpoint ⟨[], []⟩ oid1 oid2 (.num (-10)) "" =
      (⟨[], []⟩, .error .invalidAmount) :=
  ⟨(c6_amount_validation ⟨[], []⟩ oid1 oid2 "").1 (.num 0) (by decide),
   (c6_amount_validation ⟨[], []⟩ oid1 oid2 "").1 (.num (-10)) (by decide)⟩

/-- Claim C7, counterexample: the rounding the code applies on write is
JavaScript `Math.round` scaled by 100, which rounds halves toward
positive infinity, not away from zero: the written balance value −0.005
becomes 0.00 (and the resulting account is accepted with balance 0),
while round-half-away-from-zero would give −0.01 (which the `min: 0`
validator would then reject) — so the claimed rounding function is not
the one the code uses. -/
theorem c7_claim_counterexample :
    balanceSet (.num (-(1 / 200))) = .num 0 ∧
    roundHalfAwayFromZero2 (-(1 / 200)) = -(1 / 100) ∧
    (0 : ℚ) ≠ -(1 / 100) ∧
    (createAccount ⟨[], []⟩ oid1 "Carol" "carol@x.io"
        (some (.num (-(1 / 200))))).2 =
      .ok ⟨oid1, "Carol", "carol@x.io", .num 0⟩ := by
  have h1 : jsRound2 (-(1 / 200)) = 0 := by
    rw [jsRound2_eval 0 (by norm_num) (by norm_num)]
    norm_num
  have hbs : balanceSet (.num (-(1 / 200))) = .num 0 := by
    show JNum.num (jsRound2 (-(1 / 200))) = JNum.num 0
    rw [h1]
  refine ⟨hbs, ?_, by norm_num, ?_⟩
  · unfold roundHalfAwayFromZero2
    rw [if_neg (by norm_num)]
    rw [show ⌊-(-(1 / 200) : ℚ) * 100 + 1 / 2⌋ = 1 from
      Int.floor_eq_iff.mpr (by constructor <;> norm_num)]
    norm_num
  · have htr : strTrim "Carol" = "Carol" := by decide
    have hem : normalizeEmail "carol@x.io" = "carol@x.io" := by decide
    simp only [createAccount, List.any_nil, Bool.false_eq_true, if_false,
      Option.getD_some, htr, hem, hbs]
    rw [if_neg (by
      rw [show nameOk "Carol" = true from by decide,
        show emailOk "carol@x.io" = true from by decide,
        show jle (JNum.num 0) (JNum.num 0) = true from by decide]
      simp)]

/-- Claim C7 (amended): every balance value, on write and on read, is
rounded to 2 fractional digits by the same function — JavaScript
`Math.round(v*100)/100`, which rounds halves toward positive infinity
and agrees with round-half-away-from-zero on every non-negative value
(hence on every stored balance, negative write inputs being the only
divergence); transferring 25.33 between accounts holding 100.55 and
50.25 yields exactly 75.22 and 75.58. -/
theorem c7_rounding_policy :
    (∀ q : ℚ, 0 ≤ q → jsRound2 q = roundHalfAwayFromZero2 q) ∧
    (∀ v, balanceGet v = balanceSet v) ∧
    transferEndpoint
        ⟨[⟨oid1, "A", "a@x.io", .num (10055 / 100)⟩,
          ⟨oid2, "B", "b@x.io", .num (5025 / 100)⟩], []⟩
        oid1 oid2 (.num (2533 / 100)) "" =
      (⟨[⟨oid1, "A", "a@x.io", .num (7522 / 100)⟩,
         ⟨oid2, "B", "b@x.io", .num (7558 / 100)⟩],
        [⟨oid1, oid2, .num (2533 / 100), "SUCCESS", ""⟩]⟩,
       .ok ⟨.num (2533 / 100), .num (7522 / 100), .num (7558 / 100)⟩) := by
  refine ⟨fun q hq => ?_, fun v => rfl, ?_⟩
  · unfold jsRound2 roundHalfAwayFromZero2
    rw [if_pos hq]
  · unfold transferEndpoint transferMoney
    rw [if_neg (by
        simp only [isNan, jle, Bool.false_or]
        simp only [decide_eq_true_eq]
        norm_num),
      if_neg (by decide), if_neg (by decide), if_neg (by decide),
      if_neg (by
        simp only [jle, decide_eq_true_eq]
        norm_num)]
    have hr : jround2 (.num (2533 / 100)) = .num (2533 / 100) := by
      simp only [jround2]
      rw [jsRound2_eq_self 2533 (by norm_num)]
    rw [hr]
    rw [transferAtomicOps_commit
      ⟨[⟨oid1, "A", "a@x.io", .num (10055 / 100)⟩,
        ⟨oid2, "B", "b@x.io", .num (5025 / 100)⟩], []⟩
      oid1 oid2 "" (2533 / 100) (10055 / 100) (5025 / 100)
      ⟨oid1, "A", "a@x.io", .num (10055 / 100)⟩
      ⟨oid2, "B", "b@x.io", .num (5025 / 100)⟩
      (by unfold IdsNodup; decide) rfl rfl rfl rfl (by decide)
      ⟨2533, by norm_num⟩ ⟨10055, by norm_num⟩ ⟨5025, by norm_num⟩
      (by norm_num) (by norm_num)]
    have e11 : (oid1 == oid1) = true := by decide
    have e21 : (oid2 == oid1) = false := by decide
    have e22 : (oid2 == oid2) = true := by decide
    simp only [List.map_cons, List.map_nil, e11, e21, e22,
      Bool.false_eq_true, if_false, if_true]
    norm_num

/-- Claim C7, witness: at the non-negative value 1/8 the code rounding
agrees with round-half-away-from-zero. -/
theorem c7_rounding_policy_witness :
    jsRound2 (1 / 8) = roundHalfAwayFromZero2 (1 / 8) :=
  c7_rounding_policy.1 (1 / 8) (by norm_num)

/-- Claim C8: account creation fails with the duplicate-email error
whenever some existing account holds the same normalized
(trimmed, lower-cased) email, and the state — in particular the set of
accounts — is returned unchanged, so no account is created. -/
theorem c8_duplicate_email (st : State) (newId name email : String)
    (ib : Option JNum)
    (h : ∃ u ∈ st.users, u.email = normalizeEmail email) :
    createAccount st newId name email ib = (st, .error .duplicateEmail) := by
  unfold createAccount
  rw [if_pos (by
    rw [List.any_eq_true]
    obtain ⟨u, hu, he⟩ := h
    exact ⟨u, hu, by simp [he]⟩)]

/-- Claim C8, witness: with `alice@test.com` taken, creating an account
for `ALICE@TEST.COM` — the same email up to letter case — fails with
the duplicate-email error and creates nothing. -/
theorem c8_duplicate_email_witness :
    createAccount ⟨[⟨oid1, "Alice", "alice@test.com", .num 100⟩], []⟩
        oid2 "Imposter" "ALICE@TEST.COM" (some (.num 10)) =
      (⟨[⟨oid1, "Alice", "alice@test.com", .num 100⟩], []⟩,
       .error .duplicateEmail) :=
  c8_duplicate_email _ _ _ _ _
    ⟨⟨oid1, "Alice", "alice@test.com", .num 100⟩, by simp, by decide⟩

/-- Claim C2: every transfer that commits successfully debits the
sender by exactly the normalized amount `q`, credits the recipient by
the same `q`, preserves the sum of the two balances, creates exactly
one `SUCCESS` ledger record bearing that amount, and reports `q` and
the two post-transfer balances in its result. -/
theorem c2_transfer_success
    (st st2 : State) (r : TransferResult) (fromId toId desc : String)
    (a : JNum) (u v : Account) (b1 b2 q : ℚ)
    (hnd : IdsNodup st.users)
    (hu : findUser st.users fromId = some u)
    (hv : findUser st.users toId = some v)
    (hb1 : u.balance = .num b1) (hb2 : v.balance = .num b2)
    (h2b1 : Is2dp b1) (h2b2 : Is2dp b2)
    (hq : jround2 a = .num q)
    (h : transferEndpoint st fromId toId a desc = (st2, .ok r)) :
    findUser st2.users fromId =
        some { u with balance := .num (b1 - q) } ∧
    findUser st2.users toId =
        some { v with balance := .num (b2 + q) } ∧
    (b1 - q) + (b2 + q) = b1 + b2 ∧
    st2.txns = ⟨fromId, toId, .num q, "SUCCESS", desc⟩ :: st.txns ∧
    r = ⟨.num q, .num (b1 - q), .num (b2 + q)⟩ := by
  have huid : u.id = fromId := findUser_id hu
  have hvid : v.id = toId := findUser_id hv
  have h2q : Is2dp q := by
    cases a with
    | num a0 =>
        have ha0 : jsRound2 a0 = q := by
          simpa [jround2] using hq
        rw [← ha0]
        exact jsRound2_is2dp a0
    | nan => simp [jround2] at hq
    | inf => simp [jround2] at hq
    | ninf => simp [jround2] at hq
  have hrq : jsRound2 q = q := jsRound2_of_is2dp h2q
  have hrb1 : jsRound2 b1 = b1 := jsRound2_of_is2dp h2b1
  -- controller guard passed
  unfold transferEndpoint at h
  have hg0 : (isNan a || jle a (.num 0)) = false := by
    cases hB : (isNan a || jle a (.num 0)) with
    | false => rfl
    | true => rw [if_pos hB] at h; simp at h
  rw [if_neg (by simp [hg0])] at h
  -- service validations passed
  unfold transferMoney at h
  have hf : validObjectId fromId = true := by
    cases hB : validObjectId fromId with
    | true => rfl
    | false => rw [if_pos (by simp [hB])] at h; simp at h
  rw [if_neg (by simp [hf])] at h
  have ht : validObjectId toId = true := by
    cases hB : validObjectId toId with
    | true => rfl
    | false => rw [if_pos (by simp [hB])] at h; simp at h
  rw [if_neg (by simp [ht])] at h
  have hne : (fromId == toId) = false := by
    cases hB : (fromId == toId) with
    | false => rfl
    | true => rw [if_pos hB] at h; simp at h
  rw [if_neg (by simp [hne])] at h
  have hpos : jle a (.num 0) = false := (Bool.or_eq_false_iff.mp hg0).2
  rw [if_neg (by simp [hpos])] at h
  rw [hq] at h
  -- the transfer body
  unfold transferAtomicOps at h
  rw [hu, hv] at h
  dsimp only at h
  rw [hb1] at h
  rw [show balanceGet (.num b1) = .num b1 by
    simp [balanceGet, jround2, hrb1]] at h
  have hlt1 : jlt (.num b1) (.num q) = false := by
    cases hB : jlt (.num b1) (.num q) with
    | false => rfl
    | true => rw [if_pos hB] at h; simp at h
  rw [if_neg (by simp [hlt1])] at h
  have hle : q ≤ b1 := by
    have := hlt1
    simp only [jlt, decide_eq_false_iff_not, not_lt] at this
    exact this
  -- the debit
  have heval1 : jround2 (jneg (.num q)) = .num (-q) := by
    simp only [jneg, jround2, jsRound2_of_is2dp (is2dp_neg h2q)]
  rw [updateBalance_of_findUser_some hnd hu (jneg (.num q)),
    heval1, hb1] at h
  have hguard1 : debitGuard (.num (-q)) (.num b1) = true := by
    unfold debitGuard
    split
    · rename_i hlt0
      simp only [jlt, decide_eq_true_eq] at hlt0
      simp only [jabs, jle, abs_of_neg hlt0, neg_neg, decide_eq_true_eq]
      exact hle
    · rfl
  rw [if_pos hguard1] at h
  rw [show jadd (.num b1) (.num (-q)) = .num (b1 - q) by
    simp only [jadd, ← sub_eq_add_neg]] at h
  dsimp only at h
  -- the credit
  have hnep : fromId ≠ toId := by
    intro hh
    rw [hh] at hne
    simp at hne
  have hw1 : (Account.mk u.id u.name u.email (.num (b1 - q))).id =
      fromId := huid
  have hnd1 := idsNodup_setBal hw1 hnd
  have hv1 : findUser (st.users.map fun x : Account =>
      if x.id == fromId then
        { u with balance := JNum.num (b1 - q) } else x) toId = some v := by
    rw [findUser_setBal hw1, hv]
    simp only [Option.map_some']
    rw [if_neg fun hc => hnep (eq_of_beq (hvid ▸ hc)).symm]
  rw [updateBalance_of_findUser_some hnd1 hv1 (.num q)] at h
  rw [show jround2 (.num q) = .num q by simp [jround2, hrq], hb2] at h
  have hguard2 : debitGuard (.num q) (.num b2) = true := by
    cases hB : debitGuard (.num q) (.num b2) with
    | true => rfl
    | false => rw [if_neg (by simp [hB])] at h; simp at h
  rw [if_pos hguard2] at h
  rw [show jadd (.num b2) (.num q) = .num (b2 + q) from rfl] at h
  dsimp only at h
  -- the ledger write
  unfold txnSave at h
  rw [show jround2 (.num q) = .num q by simp [jround2, hrq]] at h
  have hmin : jle (.num (1 / 100)) (.num q) = true := by
    cases hB : jle (.num (1 / 100)) (.num q) with
    | true => rfl
    | false => rw [if_neg (by rw [hB]; simp)] at h; simp at h
  rw [if_pos hmin] at h
  dsimp only at h
  -- the re-reads
  have hw2 : (Account.mk v.id v.name v.email (.num (b2 + q))).id =
      toId := hvid
  have hfu2 : findUser ((st.users.map fun x : Account =>
      if x.id == fromId then
        { u with balance := JNum.num (b1 - q) } else x).map
        fun x : Account => if x.id == toId then
          { v with balance := JNum.num (b2 + q) } else x) fromId =
      some { u with balance := JNum.num (b1 - q) } := by
    have hbu : (u.id == fromId) = true := by
      rw [huid]
      simp
    rw [findUser_setBal hw2, findUser_setBal hw1, hu]
    simp only [Option.map_some']
    rw [if_pos hbu]
    dsimp only
    rw [if_neg fun hc => hnep (eq_of_beq (huid ▸ hc))]
  have htu2 : findUser ((st.users.map fun x : Account =>
      if x.id == fromId then
        { u with balance := JNum.num (b1 - q) } else x).map
        fun x : Account => if x.id == toId then
          { v with balance := JNum.num (b2 + q) } else x) toId =
      some { v with balance := JNum.num (b2 + q) } := by
    have hbv : (v.id == toId) = true := by
      rw [hvid]
      simp
    rw [findUser_setBal hw2, hv1]
    simp only [Option.map_some']
    rw [if_pos hbv]
  rw [hfu2, htu2] at h
  dsimp only at h
  have h2sub : Is2dp (b1 - q) := by
    rw [sub_eq_add_neg]
    exact is2dp_add h2b1 (is2dp_neg h2q)
  rw [show balanceGet (.num (b1 - q)) = .num (b1 - q) by
    simp [balanceGet, jround2, jsRound2_of_is2dp h2sub]] at h
  rw [show balanceGet (.num (b2 + q)) = .num (b2 + q) by
    simp [balanceGet, jround2,
      jsRound2_of_is2dp (is2dp_add h2b2 h2q)]] at h
  simp only [Prod.mk.injEq, Except.ok.injEq] at h
  obtain ⟨hst, hres⟩ := h
  refine ⟨?_, ?_, by ring, ?_, hres.symm⟩
  · rw [← hst]
    exact hfu2
  · rw [← hst]
    exact htu2
  · rw [← hst]

/-- Claim C2, witness: the spec scenario — accounts holding 100 and
50, transfer of 30 — leaves the sender at 70 and the recipient at 80,
with exactly one SUCCESS record of amount 30 in the ledger. -/
theorem c2_transfer_success_witness :
    findUser [⟨oid1, "A", "a@x.io", .num 70⟩, ⟨oid2, "B", "b@x.io", .num 80⟩]
        oid1 = some ⟨oid1, "A", "a@x.io", .num (100 - 30)⟩ ∧
    findUser [⟨oid1, "A", "a@x.io", .num 70⟩, ⟨oid2, "B", "b@x.io", .num 80⟩]
        oid2 = some ⟨oid2, "B", "b@x.io", .num (50 + 30)⟩ ∧
    (100 - 30 : ℚ) + (50 + 30) = 100 + 50 ∧
    ([⟨oid1, oid2, .num 30, "SUCCESS", ""⟩] : List Txn) =
      [⟨oid1, oid2, .num 30, "SUCCESS", ""⟩] ∧
    (⟨.num 30, .num 70, .num 80⟩ : TransferResult) =
      ⟨.num 30, .num (100 - 30), .num (50 + 30)⟩ := by
  have h30 : jsRound2 (30 : ℚ) = 30 := jsRound2_eq_self 3000 (by norm_num)
  have hconc : transferEndpoint
      ⟨[⟨oid1, "A", "a@x.io", .num 100⟩, ⟨oid2, "B", "b@x.io", .num 50⟩],
       []⟩ oid1 oid2 (.num 30) "" =
      (⟨[⟨oid1, "A", "a@x.io", .num 70⟩, ⟨oid2, "B", "b@x.io", .num 80⟩],
        [⟨oid1, oid2, .num 30, "SUCCESS", ""⟩]⟩,
       .ok ⟨.num 30, .num 70, .num 80⟩) := by
    unfold transferEndpoint transferMoney
    rw [if_neg (by decide), if_neg (by decide), if_neg (by decide),
      if_neg (by decide), if_neg (by decide)]
    rw [show jround2 (.num 30) = .num 30 by simp [jround2, h30]]
    rw [transferAtomicOps_commit
      ⟨[⟨oid1, "A", "a@x.io", .num 100⟩, ⟨oid2, "B", "b@x.io", .num 50⟩],
       []⟩ oid1 oid2 "" 30 100 50
      ⟨oid1, "A", "a@x.io", .num 100⟩ ⟨oid2, "B", "b@x.io", .num 50⟩
      (by unfold IdsNodup; decide) rfl rfl rfl rfl (by decide)
      ⟨3000, by norm_num⟩ ⟨10000, by norm_num⟩ ⟨5000, by norm_num⟩
      (by norm_num) (by norm_num)]
    have e11 : (oid1 == oid1) = true := by decide
    have e21 : (oid2 == oid1) = false := by decide
    have e22 : (oid2 == oid2) = true := by decide
    simp only [List.map_cons, List.map_nil, e11, e21, e22,
      Bool.false_eq_true, if_false, if_true]
    norm_num
  have := c2_transfer_success
    ⟨[⟨oid1, "A", "a@x.io", .num 100⟩, ⟨oid2, "B", "b@x.io", .num 50⟩], []⟩
    ⟨[⟨oid1, "A", "a@x.io", .num 70⟩, ⟨oid2, "B", "b@x.io", .num 80⟩],
     [⟨oid1, oid2, .num 30, "SUCCESS", ""⟩]⟩
    ⟨.num 30, .num 70, .num 80⟩ oid1 oid2 "" (.num 30)
    ⟨oid1, "A", "a@x.io", .num 100⟩ ⟨oid2, "B", "b@x.io", .num 50⟩
    100 50 30 (by unfold IdsNodup; decide) rfl rfl rfl rfl
    ⟨10000, by norm_num⟩ ⟨5000, by norm_num⟩
    (by simp [jround2, h30]) hconc
  exact this

/-- Claim C9: a strictly positive amount that rounds to 0.00 (for
example 0.004) passes both positivity checks, which are applied to the
raw amount; the normalized transfer amount becomes 0; both zero-delta
balance adjustments succeed and leave every balance exactly as it was;
and the call then fails at the ledger write, because the `Transaction`
schema requires `amount >= 0.01` — so the caller receives an error
(distinct from `InvalidAmount`) although the validation phase raised
none, and no ledger record is created. -/
theorem c9_subcent_amount
    (st : State) (fromId toId desc : String) (a : ℚ) (u v : Account)
    (b1 b2 : ℚ)
    (hnd : IdsNodup st.users)
    (hf : validObjectId fromId = true) (ht : validObjectId toId = true)
    (hne : fromId ≠ toId)
    (hu : findUser st.users fromId = some u)
    (hv : findUser st.users toId = some v)
    (hb1 : u.balance = .num b1) (hb2 : v.balance = .num b2)
    (h2b1 : Is2dp b1) (hb1p : 0 ≤ b1)
    (hapos : 0 < a) (hr0 : jsRound2 a = 0) :
    (transferEndpoint st fromId toId (.num a) desc).2 =
      .error .validationFailed ∧
    Err.validationFailed ≠ Err.invalidAmount ∧
    jround2 (.num a) = .num 0 ∧
    (∃ us1 x, updateBalance st.users fromId (jneg (jround2 (.num a))) =
        .ok (us1, x) ∧
      ∃ us2 y, updateBalance us1 toId (jround2 (.num a)) = .ok (us2, y)) ∧
    findUser (transferEndpoint st fromId toId (.num a) desc).1.users
        fromId = some u ∧
    findUser (transferEndpoint st fromId toId (.num a) desc).1.users
        toId = some v ∧
    (transferEndpoint st fromId toId (.num a) desc).1.txns = st.txns := by
  have huid : u.id = fromId := findUser_id hu
  have hvid : v.id = toId := findUser_id hv
  have hrz : jround2 (.num a) = .num 0 := by
    simp [jround2, hr0]
  have hz0 : jsRound2 0 = 0 := jsRound2_eq_self 0 (by norm_num)
  have hnegz : jround2 (jneg (.num 0)) = .num 0 := by
    simp [jneg, jround2, hz0]
  have hrb1 : jsRound2 b1 = b1 := jsRound2_of_is2dp h2b1
  have hueta : Account.mk u.id u.name u.email (.num b1) = u := by
    rw [← hb1]
  have hveta : Account.mk v.id v.name v.email (.num b2) = v := by
    rw [← hb2]
  -- the zero-delta debit
  have hdeb : updateBalance st.users fromId (jneg (.num 0)) =
      .ok (st.users.map fun x : Account =>
            if x.id == fromId then u else x, u) := by
    rw [updateBalance_of_findUser_some hnd hu (jneg (.num 0)), hnegz]
    rw [if_pos (by unfold debitGuard; rw [if_neg (by simp [jlt])])]
    rw [hb1, show jadd (.num b1) (.num 0) = .num b1 by simp [jadd], hueta]
  have hnd1 := idsNodup_setBal (w := u) huid hnd
  have hv1 : findUser (st.users.map fun x : Account =>
      if x.id == fromId then u else x) toId = some v := by
    rw [findUser_setBal huid, hv]
    simp only [Option.map_some']
    rw [if_neg fun hc => hne (eq_of_beq (hvid ▸ hc)).symm]
  -- the zero-delta credit
  have hcred : updateBalance (st.users.map fun x : Account =>
      if x.id == fromId then u else x) toId (.num 0) =
      .ok ((st.users.map fun x : Account =>
            if x.id == fromId then u else x).map fun x : Account =>
            if x.id == toId then v else x, v) := by
    rw [updateBalance_of_findUser_some hnd1 hv1 (.num 0)]
    rw [show jround2 (.num 0) = .num 0 by simp [jround2, hz0]]
    rw [if_pos (by unfold debitGuard; rw [if_neg (by simp [jlt])])]
    rw [hb2, show jadd (.num b2) (.num 0) = .num b2 by simp [jadd], hveta]
  -- the run fails at the ledger write
  have hrun : transferEndpoint st fromId toId (.num a) desc =
      ({ st with users := (st.users.map fun x : Account =>
            if x.id == fromId then u else x).map fun x : Account =>
            if x.id == toId then v else x },
       .error .validationFailed) := by
    unfold transferEndpoint transferMoney
    rw [if_neg (by
        simp only [isNan, jle, Bool.false_or, decide_eq_true_eq]
        exact fun hc => absurd hapos (by linarith)),
      if_neg (by simp [hf]), if_neg (by simp [ht]),
      if_neg (by simp [hne]),
      if_neg (by
        simp only [jle, decide_eq_true_eq]
        exact fun hc => absurd hapos (by linarith))]
    rw [hrz]
    unfold transferAtomicOps
    rw [hu, hv]
    dsimp only
    rw [hb1, show balanceGet (.num b1) = .num b1 by
      simp [balanceGet, jround2, hrb1]]
    rw [if_neg (by simp only [jlt, decide_eq_true_eq]; linarith)]
    rw [hdeb]
    dsimp only
    rw [hcred]
    dsimp only
    rw [show txnSave st.txns
        ⟨fromId, toId, .num 0, "SUCCESS", desc⟩ =
        .error .validationFailed by
      unfold txnSave
      rw [if_neg (by
        rw [show jround2 (.num 0) = .num 0 by simp [jround2, hz0]]
        simp only [jle, decide_eq_true_eq]
        intro hc
        norm_num at hc)]]
  have hfu2 : findUser ((st.users.map fun x : Account =>
      if x.id == fromId then u else x).map fun x : Account =>
      if x.id == toId then v else x) fromId = some u := by
    have hbu : (u.id == fromId) = true := by
      rw [huid]
      simp
    rw [findUser_setBal hvid, findUser_setBal huid, hu]
    simp only [Option.map_some']
    rw [if_pos hbu]
    rw [if_neg fun hc => hne (eq_of_beq (huid ▸ hc))]
  have htu2 : findUser ((st.users.map fun x : Account =>
      if x.id == fromId then u else x).map fun x : Account =>
      if x.id == toId then v else x) toId = some v := by
    have hbv : (v.id == toId) = true := by
      rw [hvid]
      simp
    rw [findUser_setBal hvid, hv1]
    simp only [Option.map_some']
    rw [if_pos hbv]
  refine ⟨by rw [hrun], by decide, hrz, ?_, ?_, ?_, ?_⟩
  · rw [hrz]
    exact ⟨_, _, hdeb, _, _, hcred⟩
  · rw [hrun]
    exact hfu2
  · rw [hrun]
    exact htu2
  · rw [hrun]

/-- Claim C9, witness: amount 0.004 against accounts holding 100 and
50 errs only at the ledger write and leaves both accounts and the
ledger untouched. -/
theorem c9_subcent_amount_witness :
    (transferEndpoint
        ⟨[⟨oid1, "A", "a@x.io", .num 100⟩, ⟨oid2, "B", "b@x.io", .num 50⟩],
         []⟩ oid1 oid2 (.num (1 / 250)) "").2 =
      .error .validationFailed ∧
    findUser (transferEndpoint
        ⟨[⟨oid1, "A", "a@x.io", .num 100⟩, ⟨oid2, "B", "b@x.io", .num 50⟩],
         []⟩ oid1 oid2 (.num (1 / 250)) "").1.users oid1 =
      some ⟨oid1, "A", "a@x.io", .num 100⟩ ∧
    (transferEndpoint
        ⟨[⟨oid1, "A", "a@x.io", .num 100⟩, ⟨oid2, "B", "b@x.io", .num 50⟩],
         []⟩ oid1 oid2 (.num (1 / 250)) "").1.txns = [] := by
  have h := c9_subcent_amount
    ⟨[⟨oid1, "A", "a@x.io", .num 100⟩, ⟨oid2, "B", "b@x.io", .num 50⟩], []⟩
    oid1 oid2 "" (1 / 250)
    ⟨oid1, "A", "a@x.io", .num 100⟩ ⟨oid2, "B", "b@x.io", .num 50⟩
    100 50 (by unfold IdsNodup; decide) (by decide) (by decide)
    (by decide) rfl rfl rfl rfl ⟨10000, by norm_num⟩ (by norm_num)
    (by norm_num)
    (by rw [jsRound2_eval 0 (by norm_num) (by norm_num)]; norm_num)
  exact ⟨h.1, h.2.2.2.2.1, h.2.2.2.2.2.2⟩

/-- A successful `updateBalance` with a finite delta keeps every
balance a non-negative multiple of 0.01. -/
theorem updateBalance_inv {us : List Account} {uid : String} {δ : JNum}
    {us2 : List Account} {x : Account} (hfin : ∃ d : ℚ, δ = .num d)
    (hinv : UsersInv us) (h : updateBalance us uid δ = .ok (us2, x)) :
    UsersInv us2 := by
  obtain ⟨d, rfl⟩ := hfin
  unfold updateBalance at h
  cases hc : us.find?
      (fun w => w.id == uid && debitGuard (jround2 (.num d)) w.balance) with
  | none => rw [hc] at h; simp at h
  | some w =>
      rw [hc] at h
      simp only [Except.ok.injEq, Prod.mk.injEq] at h
      obtain ⟨h1, _⟩ := h
      intro y hy
      rw [← h1] at hy
      rcases List.mem_map.mp hy with ⟨w0, hw0, rfl⟩
      by_cases hcase : (w0.id == uid) = true
      · rw [if_pos hcase]
        have hwmem : w ∈ us := List.mem_of_find?_eq_some hc
        have hwp := List.find?_some hc
        have hguard : debitGuard (jround2 (.num d)) w.balance = true :=
          ((Bool.and_eq_true _ _).mp hwp).2
        obtain ⟨n, hn⟩ := hinv w hwmem
        obtain ⟨z, hz⟩ := jsRound2_is2dp d
        have hsum : jadd w.balance (jround2 (.num d)) =
            .num ((n : ℚ) / 100 + jsRound2 d) := by
          rw [hn]
          simp [jround2, jadd]
        have hnonneg : 0 ≤ (n : ℚ) / 100 + jsRound2 d := by
          rw [hn] at hguard
          unfold debitGuard at hguard
          by_cases hlt : jlt (jround2 (.num d)) (.num 0) = true
          · rw [if_pos hlt] at hguard
            simp only [jround2, jlt, decide_eq_true_eq] at hlt
            simp only [jround2, jabs, jle, decide_eq_true_eq] at hguard
            rw [abs_of_neg hlt] at hguard
            linarith
          · simp only [jround2, jlt, decide_eq_true_eq, not_lt] at hlt
            positivity
        refine ⟨(n + z).toNat, ?_⟩
        simp only [hsum]
        have hzz : ((n : ℚ) / 100 + jsRound2 d) = ((n + z : ℤ) : ℚ) / 100 := by
          rw [hz]
          push_cast
          ring
        have htn : (0 : ℤ) ≤ n + z := by
          by_contra hcon
          push_neg at hcon
          have : ((n + z : ℤ) : ℚ) / 100 < 0 := by
            have : ((n + z : ℤ) : ℚ) < 0 := by exact_mod_cast hcon
            linarith
          rw [← hzz] at this
          linarith
        rw [hzz, show ((n + z : ℤ) : ℚ) = (((n + z).toNat : ℕ) : ℚ) by
          exact_mod_cast (Int.toNat_of_nonneg htn).symm]
      · rw [if_neg hcase]
        exact hinv w0 hw0

/-- The fallback transfer body keeps every balance a non-negative
multiple of 0.01, for any rounded amount it can receive from
`transferMoney` (a finite rational or positive infinity). -/
theorem transferAtomicOps_inv (st : State) (fromId toId desc : String)
    (amt : JNum) (hinv : UsersInv st.users)
    (hamt : (∃ q : ℚ, amt = .num q) ∨ amt = .inf) :
    UsersInv (transferAtomicOps st fromId toId amt desc).1.users := by
  unfold transferAtomicOps
  cases hfu : findUser st.users fromId with
  | none => exact hinv
  | some u =>
    cases htv : findUser st.users toId with
    | none => exact hinv
    | some v =>
      dsimp only
      by_cases hchk : jlt (balanceGet u.balance) amt = true
      · rw [if_pos hchk]
        exact hinv
      · rw [if_neg hchk]
        obtain ⟨q, rfl⟩ : ∃ q : ℚ, amt = .num q := by
          rcases hamt with hq | hinf
          · exact hq
          · exfalso
            subst hinf
            obtain ⟨n, hn⟩ := hinv u (findUser_mem hfu)
            rw [hn] at hchk
            exact hchk (by simp [balanceGet, jround2, jlt])
        cases hdeb : updateBalance st.users fromId (jneg (.num q)) with
        | error e => exact hinv
        | ok p =>
          obtain ⟨us1, x⟩ := p
          have hinv1 : UsersInv us1 :=
            updateBalance_inv ⟨-q, rfl⟩ hinv hdeb
          dsimp only
          cases hcr : updateBalance us1 toId (.num q) with
          | error e => exact hinv1
          | ok p2 =>
            obtain ⟨us2, y⟩ := p2
            have hinv2 : UsersInv us2 :=
              updateBalance_inv ⟨q, rfl⟩ hinv1 hcr
            dsimp only
            cases hts : txnSave st.txns
                ⟨fromId, toId, .num q, "SUCCESS", desc⟩ with
            | error e => exact hinv2
            | ok ts2 =>
              dsimp only
              cases findUser us2 fromId <;>
                cases findUser us2 toId <;> exact hinv2

/-- Claim C10, counterexample: account creation with initial balance
Infinity — reachable over HTTP, since a JSON body value `1e400` or the
string `"Infinity"` casts to the JavaScript number `Infinity` — passes
the rounding setter (Infinity is a fixed point of
`Math.round(v*100)/100`) and the `min: 0` validator
(`Infinity >= 0` holds), so the program persists an account whose
balance is Infinity, which is not a non-negative integer multiple of
0.01; the claimed invariant is therefore not preserved by every
operation. -/
theorem c10_claim_counterexample :
    createAccount ⟨[], []⟩ oid1 "Carol" "carol@x.io" (some .inf) =
      (⟨[⟨oid1, "Carol", "carol@x.io", .inf⟩], []⟩,
       .ok ⟨oid1, "Carol", "carol@x.io", .inf⟩) ∧
    ¬ Is2dpNonneg JNum.inf := by
  constructor
  · rfl
  · rintro ⟨n, h⟩
    exact JNum.noConfusion h

/-- Claim C10 (amended): every operation except account creation with
initial balance Infinity preserves the invariant that each account
balance is a non-negative integer multiple of 0.01 — account creation
for any other initial balance (finite values are rounded to 2 digits
and min-0-validated; NaN and negative infinity fail the `value >= 0`
validator), `updateBalance` with a finite delta, and the full transfer
endpoint for every JavaScript-number amount; creation with Infinity is
the one violation. -/
theorem c10_balance_invariant :
    (∀ st newId name email (ib : Option JNum), ib ≠ some .inf →
      UsersInv (State.users st) →
      UsersInv ((createAccount st newId name email ib).1.users)) ∧
    (∀ us uid (d : ℚ) us2 x, UsersInv us →
      updateBalance us uid (.num d) = .ok (us2, x) → UsersInv us2) ∧
    (∀ st fromId toId a desc, UsersInv (State.users st) →
      UsersInv ((transferEndpoint st fromId toId a desc).1.users)) := by
  refine ⟨?_, ?_, ?_⟩
  · intro st nid nm em ib hne hinv
    simp only [createAccount]
    split
    · exact hinv
    · split
      · exact hinv
      · rename_i hval
        intro y hy
        rcases List.mem_append.mp hy with hmem | hmem
        · exact hinv y hmem
        · rcases List.mem_singleton.mp hmem with rfl
          simp only [Bool.or_eq_true, not_or] at hval
          obtain ⟨-, hbal⟩ := hval
          have hj : jle (.num 0) (balanceSet (ib.getD (.num 100))) =
              true := by
            cases hx : jle (.num 0) (balanceSet (ib.getD (.num 100))) with
            | true => rfl
            | false => exact absurd (by rw [hx]; rfl) hbal
          show Is2dpNonneg (balanceSet (ib.getD (.num 100)))
          cases hball : ib.getD (.num 100) with
          | num b =>
              rw [hball] at hj
              have hge : 0 ≤ jsRound2 b := by
                simp only [balanceSet, jround2, jle,
                  decide_eq_true_eq] at hj
                exact hj
              obtain ⟨z, hz⟩ := jsRound2_is2dp b
              have hz0 : (0 : ℤ) ≤ z := by
                by_contra hcon
                push_neg at hcon
                rw [hz] at hge
                have hzq : ((z : ℚ)) < 0 := by exact_mod_cast hcon
                linarith
              refine ⟨z.toNat, ?_⟩
              simp only [balanceSet, jround2]
              rw [hz, show ((z.toNat : ℕ) : ℚ) = (z : ℚ) by
                exact_mod_cast congrArg Int.cast
                  (Int.toNat_of_nonneg hz0)]
          | nan =>
              rw [hball] at hj
              simp [balanceSet, jround2, jle] at hj
          | inf =>
              exfalso
              apply hne
              cases ib with
              | none => simp [Option.getD] at hball
              | some x =>
                  simp only [Option.getD] at hball
                  rw [hball]
          | ninf =>
              rw [hball] at hj
              simp [balanceSet, jround2, jle] at hj
  · intro us uid d us2 x hinv h
    exact updateBalance_inv ⟨d, rfl⟩ hinv h
  · intro st fromId toId a desc hinv
    unfold transferEndpoint
    by_cases hg : (isNan a || jle a (.num 0)) = true
    · rw [if_pos hg]
      exact hinv
    · rw [if_neg hg]
      unfold transferMoney
      split
      · exact hinv
      · split
        · exact hinv
        · split
          · exact hinv
          · split
            · exact hinv
            · refine transferAtomicOps_inv st fromId toId desc
                (jround2 a) hinv ?_
              cases a with
              | num a0 => exact Or.inl ⟨jsRound2 a0, rfl⟩
              | nan =>
                  exact absurd (by simp [isNan] :
                    (isNan JNum.nan || jle JNum.nan (JNum.num 0)) = true) hg
              | inf => exact Or.inr rfl
              | ninf =>
                  exact absurd (by simp [isNan, jle] :
                    (isNan JNum.ninf || jle JNum.ninf (JNum.num 0)) = true) hg

/-- Claim C10, witness: the invariant holds after creating an account
with the finite initial balance 10.005 (stored as 10.01) on top of an
account holding 100. -/
theorem c10_balance_invariant_witness :
    UsersInv ((createAccount
        ⟨[⟨oid1, "A", "a@x.io", .num 100⟩], []⟩ oid2 "Bea" "bea@x.io"
        (some (.num (2001 / 200)))).1.users) := by
  refine c10_balance_invariant.1
    ⟨[⟨oid1, "A", "a@x.io", .num 100⟩], []⟩ oid2 "Bea" "bea@x.io"
    (some (.num (2001 / 200))) (by decide) ?_
  intro u hu
  rcases List.mem_singleton.mp hu with rfl
  exact ⟨10000, by norm_num⟩

/-- One atomic conditional debit against a single-account store:
succeeds and subtracts exactly when the balance covers the (2-decimal)
amount, and otherwise fails with `Insufficient balance`. -/
theorem updateBalance_single (uid nm em : String) (b a : ℚ)
    (ha : 0 < a) (h2 : jsRound2 a = a) :
    updateBalance [⟨uid, nm, em, .num b⟩] uid (.num (-a)) =
      if a ≤ b then
        .ok ([⟨uid, nm, em, .num (b - a)⟩], ⟨uid, nm, em, .num (b - a)⟩)
      else .error .insufficientBalance := by
  have hnd : IdsNodup [(⟨uid, nm, em, .num b⟩ : Account)] := by
    simp [IdsNodup]
  have hu : findUser [(⟨uid, nm, em, .num b⟩ : Account)] uid =
      some ⟨uid, nm, em, .num b⟩ := by
    unfold findUser
    simp [List.find?]
  rw [updateBalance_of_findUser_some hnd hu]
  have h2dp : Is2dp a := by
    rw [← h2]
    exact jsRound2_is2dp a
  have hrnq : jround2 (.num (-a)) = .num (-a) := by
    simp [jround2, jsRound2_of_is2dp (is2dp_neg h2dp)]
  rw [hrnq]
  by_cases hab : a ≤ b
  · have hg : debitGuard (.num (-a))
        ((⟨uid, nm, em, .num b⟩ : Account).balance) = true := by
      show debitGuard (.num (-a)) (.num b) = true
      unfold debitGuard
      rw [if_pos (by simp only [jlt, decide_eq_true_eq]; linarith)]
      simp only [jabs, jle, abs_of_neg (by linarith : -a < 0), neg_neg,
        decide_eq_true_eq]
      exact hab
    rw [if_pos hg, if_pos hab]
    simp [jadd, sub_eq_add_neg]
  · have hg : debitGuard (.num (-a))
        ((⟨uid, nm, em, .num b⟩ : Account).balance) = false := by
      show debitGuard (.num (-a)) (.num b) = false
      unfold debitGuard
      rw [if_pos (by simp only [jlt, decide_eq_true_eq]; linarith)]
      simp only [jabs, jle, abs_of_neg (by linarith : -a < 0), neg_neg]
      exact decide_eq_false hab
    rw [if_neg (by simp [hg]), if_neg hab]

/-- Induction core for the concurrency claim: running any event list
against the shared account leaves balance `b − s·a` where `s` is the
number of successful debits, with `s·a` never exceeding the initial
balance and every attempt counted exactly once. -/
theorem runAttempts_characterization (uid nm em : String) (a : ℚ)
    (ha : 0 < a) (h2 : jsRound2 a = a) :
    ∀ (L : List TStep) (b : ℚ), 0 ≤ b →
      ∃ s f : ℕ, runAttempts uid a L [⟨uid, nm, em, .num b⟩] =
          ([⟨uid, nm, em, .num (b - s * a)⟩], s, f) ∧
        (s : ℚ) * a ≤ b ∧ s + f = L.length := by
  intro L
  induction L with
  | nil =>
      intro b hb
      refine ⟨0, 0, ?_, by push_cast; linarith, rfl⟩
      simp only [runAttempts]
      rw [show b - ((0 : ℕ) : ℚ) * a = b by push_cast; ring]
  | cons step rest ih =>
      intro b hb
      cases step with
      | debit =>
          simp only [runAttempts]
          rw [updateBalance_single uid nm em b a ha h2]
          by_cases hab : a ≤ b
          · rw [if_pos hab]
            dsimp only
            obtain ⟨s, f, heq, hle, hsf⟩ := ih (b - a) (by linarith)
            refine ⟨s + 1, f, ?_, ?_, ?_⟩
            · rw [heq]
              dsimp only
              have harith : b - a - s * a = b - (s + 1 : ℕ) * a := by
                push_cast
                ring
              rw [harith]
            · push_cast
              linarith
            · simp only [List.length_cons]
              omega
          · rw [if_neg hab]
            dsimp only
            obtain ⟨s, f, heq, hle, hsf⟩ := ih b hb
            refine ⟨s, f + 1, ?_, hle, ?_⟩
            · rw [heq]
            · simp only [List.length_cons]
              omega
      | precheckFail =>
          simp only [runAttempts]
          obtain ⟨s, f, heq, hle, hsf⟩ := ih b hb
          refine ⟨s, f + 1, ?_, hle, ?_⟩
          · rw [heq]
          · simp only [List.length_cons]
            omega

/-- Claim C4: under any serialization of N concurrent attempts that
each debit the same account by the same 2-decimal amount `a` (each
attempt either reaching its atomic `updateBalance` debit or aborting at
the pre-check), at most `⌊b/a⌋` attempts succeed, the final balance is
exactly the initial balance minus `a` times the success count, every
attempt is accounted for as a success or a failure, and every failed
atomic debit carries the `Insufficient balance` error — the balance
check and mutation being one indivisible `findOneAndUpdate` step. -/
theorem c4_concurrent_debits
    (uid nm em : String) (a b : ℚ) (L : List TStep)
    (r : List Account × ℕ × ℕ)
    (ha : 0 < a) (h2 : jsRound2 a = a) (hb : 0 ≤ b)
    (hr : runAttempts uid a L [⟨uid, nm, em, .num b⟩] = r) :
    (r.2.1 : ℚ) * a ≤ b ∧
    (r.2.1 : ℤ) ≤ ⌊b / a⌋ ∧
    r.1 = [⟨uid, nm, em, .num (b - r.2.1 * a)⟩] ∧
    r.2.1 + r.2.2 = L.length ∧
    (∀ us uid2 e, updateBalance us uid2 (.num (-a)) = .error e →
      e = .insufficientBalance) := by
  obtain ⟨s, f, heq, hle, hsf⟩ :=
    runAttempts_characterization uid nm em a ha h2 L b hb
  rw [heq] at hr
  subst hr
  refine ⟨hle, ?_, rfl, hsf, fun us uid2 e he =>
    updateBalance_error_kind he⟩
  rw [Int.le_floor]
  push_cast
  rw [le_div_iff₀ ha]
  exact hle

/-- Claim C4, witness: three attempts to debit 60 from a balance of
100 — two reaching the atomic debit, one aborting at the pre-check —
yield exactly one success, two failures, and final balance 40. -/
theorem c4_concurrent_debits_witness :
    ((1 : ℕ) : ℚ) * 60 ≤ 100 ∧
    ((1 : ℕ) : ℤ) ≤ ⌊(100 : ℚ) / 60⌋ ∧
    ([⟨oid1, "A", "a@x.io", .num (100 - 60)⟩] : List Account) =
      [⟨oid1, "A", "a@x.io", .num (100 - ((1 : ℕ) : ℚ) * 60)⟩] ∧
    (1 : ℕ) + 2 = ([TStep.debit, TStep.debit, TStep.precheckFail]).length ∧
    (∀ us uid2 e, updateBalance us uid2 (.num (-(60 : ℚ))) = .error e →
      e = .insufficientBalance) := by
  have h60 : jsRound2 (60 : ℚ) = 60 := jsRound2_eq_self 6000 (by norm_num)
  have e1 := updateBalance_single oid1 "A" "a@x.io" 100 60 (by norm_num) h60
  rw [if_pos (by norm_num : (60 : ℚ) ≤ 100)] at e1
  have e2 := updateBalance_single oid1 "A" "a@x.io" (100 - 60) 60
    (by norm_num) h60
  rw [if_neg (by norm_num : ¬(60 : ℚ) ≤ 100 - 60)] at e2
  have hrun : runAttempts oid1 60
      [TStep.debit, TStep.debit, TStep.precheckFail]
      [⟨oid1, "A", "a@x.io", .num 100⟩] =
      ([⟨oid1, "A", "a@x.io", .num (100 - 60)⟩], 1, 2) := by
    simp only [runAttempts, e1, e2]
  exact c4_concurrent_debits oid1 "A" "a@x.io" 60 100
    [TStep.debit, TStep.debit, TStep.precheckFail]
    ([⟨oid1, "A", "a@x.io", .num (100 - 60)⟩], 1, 2)
    (by norm_num) h60 (by norm_num) hrun

end MiniWallet
